import Mathlib

/-
Verification of the pull-request attribution engine of `repository.go`
(gitb). The Go source is shallowly embedded: Go maps become association
lists with last-write-wins insertion, Go strings are Lean strings
manipulated through their character lists (Go compares strings bytewise;
over valid UTF-8, bytewise order and code-point order agree, so the
character-list order below is faithful), Go panics are embedded as
`none` / dedicated failure constructors, and external `git` subprocess
invocations become oracle functions passed as parameters.
-/

namespace Gitb

/-- Association-list model of a Go `map[string]string` read, as used for
`RefToHash`. Returns `none` when the key is absent (the `, ok` form). -/
def mapLookup : List (String × String) → String → Option String
  | [], _ => none
  | (k, v) :: rest, k' => if k' = k then some v else mapLookup rest k'

/-- Association-list model of a Go `map[string]string` assignment
`m[k] = v`: overwrite in place if the key exists, append otherwise. -/
def mapInsert : List (String × String) → String → String → List (String × String)
  | [], k, v => [(k, v)]
  | (k', v') :: rest, k, v =>
    if k' = k then (k, v) :: rest else (k', v') :: mapInsert rest k v

/-- Model of Go `strings.Split(s, sep)` for a one-character separator,
working on character lists. Always returns at least one group. -/
def splitOnChar (sep : Char) : List Char → List (List Char)
  | [] => [[]]
  | c :: cs =>
    match splitOnChar sep cs with
    | [] => [[]]
    | g :: gs => if c = sep then [] :: g :: gs else (c :: g) :: gs

/-- Go `strings.Split` lifted to `String`. -/
def goSplit (sep : Char) (s : String) : List String :=
  (splitOnChar sep s.data).map (fun l => String.mk l)

/-- Go `strings.TrimSuffix(s, "\n")`: drop one trailing newline if present,
as done on the `git ls-remote` output before splitting into lines. -/
def trimTrailNL (s : String) : String :=
  if s.data.getLast? = some '\n' then String.mk s.data.dropLast else s

/-- Loop body of `toRefToHash`: each line is split on tabs, `delimited[0]`
is the hash and `delimited[1]` the ref name. Accessing `delimited[1]` on a
line with fewer than two tab-separated fields is an out-of-range panic in
Go, embedded here as `none`. Any third and later fields are ignored. -/
def buildTable : List (String × String) → List String → Option (List (String × String))
  | m, [] => some m
  | m, v :: rest =>
    match goSplit '\t' v with
    | hash :: ref :: _ => buildTable (mapInsert m ref hash) rest
    | _ => none

/-- Embedding of `toRefToHash` (repository.go:101-111): trim one trailing
newline, split into lines, and fold each line into the ref-to-hash map.
`none` models the Go panic on a line without a tab. -/
def toRefToHash (b : String) : Option (List (String × String)) :=
  buildTable [] (goSplit '\n' (trimTrailNL b))

/-- Embedding of `isPRRef` (repository.go:396-398): the ref name starts
with `refs/pull/` and ends with `/head`. -/
def isPRRef (ref : String) : Bool :=
  ("refs/pull/").data.isPrefixOf ref.data && ("/head").data.isSuffixOf ref.data

/-- Go `strings.TrimPrefix`. -/
def goTrimPre (p s : String) : String :=
  if p.data.isPrefixOf s.data then String.mk (s.data.drop p.data.length) else s

/-- Go `strings.TrimSuffix`. -/
def goTrimSuf (sfx s : String) : String :=
  if sfx.data.isSuffixOf s.data then String.mk (s.data.take (s.data.length - sfx.data.length)) else s

/-- Embedding of `extractPRID` (repository.go:400-403). -/
def extractPRID (ref : String) : String :=
  goTrimSuf ("/head") (goTrimPre ("refs/pull/") ref)

/-- Bytewise lexicographic strict order on strings, as Go's `<` on
`string` compares (restated on character lists; order-equivalent for
valid UTF-8). This is the comparison underlying `sort.StringSlice`. -/
def charListLess : List Char → List Char → Bool
  | [], [] => false
  | [], _ :: _ => true
  | _ :: _, [] => false
  | a :: as, b :: bs => if a < b then true else if b < a then false else charListLess as bs

/-- Insert a string into a descending-sorted list, keeping it descending
with respect to `charListLess`. -/
def insertDesc (x : String) : List String → List String
  | [] => [x]
  | y :: ys => if charListLess x.data y.data then y :: insertDesc x ys else x :: y :: ys

/-- Model of `sort.Sort(sort.Reverse(sort.StringSlice(prIDs)))`
(repository.go:323): sort in descending lexical string order. Insertion
sort produces the same list as any comparison sort here, because the
string order is antisymmetric. -/
def sortDesc : List String → List String
  | [] => []
  | x :: xs => insertDesc x (sortDesc xs)

/-- Embedding of `findPullRequestIDFromRemote` (repository.go:296-326)
from the point where the `ls-remote` table is available (the `LsRemote`
subprocess call is externalized into the `refToHash` parameter) up to the
sorted candidate list that is handed to `selectPR`. The two `.error`
strings are the source's literal error messages. -/
def findPullRequestIDFromRemote (refToHash : List (String × String)) (ref : String) :
    Except String (List String) :=
  match mapLookup refToHash ref with
  | none => .error ("not found a current branch in remote")
  | some targetHash =>
    let prIDs := (refToHash.filter (fun p => isPRRef p.1 && p.2 == targetHash)).map
      (fun p => extractPRID p.1)
    if prIDs.length = 0 then .error ("not found a pull request related to current branch")
    else .ok (sortDesc prIDs)

/-- Key messages of the bubbletea selector loop: the cases distinguished
by `prSelector.Update` (repository.go:339-359), plus `other` for every
remaining key or message. -/
inductive KeyMsg
  | q | esc | ctrlC | j | down | k | up | enter
  | other (s : String)

/-- Embedding of the `prSelector` model (repository.go:328-333). The
cursor is an `Int` like a Go `int`, so that staying in bounds is a proved
property rather than a typing artifact. -/
structure prSelector where
  choices : List String
  cursor : Int
  selected : Int
  repoName : String

/-- Embedding of `prSelector.Update` (repository.go:339-359). The `Bool`
is `true` when the source returns `tea.Quit`, ending the loop. -/
def prSelector.Update (p : prSelector) (m : KeyMsg) : prSelector × Bool :=
  match m with
  | .q => (p, true)
  | .esc => (p, true)
  | .ctrlC => (p, true)
  | .j => (if p.cursor < (p.choices.length : Int) - 1 then { p with cursor := p.cursor + 1 } else p, false)
  | .down => (if p.cursor < (p.choices.length : Int) - 1 then { p with cursor := p.cursor + 1 } else p, false)
  | .k => (if p.cursor > 0 then { p with cursor := p.cursor - 1 } else p, false)
  | .up => (if p.cursor > 0 then { p with cursor := p.cursor - 1 } else p, false)
  | .enter => ({ p with selected := p.cursor }, true)
  | .other _ => (p, false)

/-- The `tea.Program` event loop, driven by an explicit event list: feed
messages to `Update` until one returns `tea.Quit`; the result is the
final model together with the number of input events read. `none` models
the loop blocking forever because the event source is exhausted. -/
def runSelector : prSelector → List KeyMsg → Option (prSelector × Nat)
  | _, [] => none
  | p, m :: ms =>
    match prSelector.Update p m with
    | (p', true) => some (p', 1)
    | (p', false) => (runSelector p' ms).map (fun r => (r.1, r.2 + 1))

/-- Observable outcome of `selectPR`: either a candidate is returned to
the caller, or the whole process terminates via `os.Exit(0)`
(repository.go:391), embedded as `exitZero`. -/
inductive SelectOutcome
  | returned (id : String)
  | exitZero

/-- Trace of one `selectPR` call: its outcome, whether an interactive
selector was created (and hence a prompt rendered), and how many input
events were read. -/
structure SelectRun where
  outcome : SelectOutcome
  prompted : Bool
  eventsRead : Nat

/-- Embedding of `selectPR` (repository.go:374-394). A single candidate
is returned immediately with no selector, no prompt and no input.
Otherwise the interactive loop runs; a final `selected` of `-1` triggers
`os.Exit(0)`. The `getD` default stands in for the Go index panic on an
out-of-range `selected`, which is unreachable from the loop. -/
def selectPR (repoName : String) (prIDs : List String) (events : List KeyMsg) :
    Option SelectRun :=
  if prIDs.length = 1 then
    some ⟨.returned (prIDs.headD ""), false, 0⟩
  else
    match runSelector ⟨prIDs, 0, -1, repoName⟩ events with
    | none => none
    | some (p', n) =>
      if p'.selected = -1 then some ⟨.exitZero, true, n⟩
      else some ⟨.returned (prIDs.getD p'.selected.toNat ""), true, n⟩

/-- Keys on which `Update` returns `tea.Quit` without confirming. -/
def isQuitKey : KeyMsg → Bool
  | .q => true
  | .esc => true
  | .ctrlC => true
  | _ => false

/-- Keys that neither quit nor confirm: the loop keeps running. -/
def isNavKey : KeyMsg → Bool
  | .q => false
  | .esc => false
  | .ctrlC => false
  | .enter => false
  | _ => true

/-- The selector model reached after feeding a list of messages to
`Update`, starting from any state. -/
def applyMsgs (p : prSelector) (ms : List KeyMsg) : prSelector :=
  ms.foldl (fun p m => (prSelector.Update p m).1) p

/-- Character class of the regexp range `[a-f0-9]`. -/
def isHexLower (c : Char) : Bool :=
  ('a' ≤ c && c ≤ 'f') || ('0' ≤ c && c ≤ '9')

/-- Character class of the regexp range `[0-9]`. -/
def isDigitCh (c : Char) : Bool :=
  '0' ≤ c && c ≤ '9'

/-- Go regexp whitespace class `\s = [\t\n\f\r ]`; `\S` is its negation. -/
def isGoSpace (c : Char) : Bool :=
  c = ' ' || c = '\t' || c = '\n' || c = '\x0c' || c = '\r'

/-- Matcher for the anchored Go regexp
`^[a-f0-9]+ Merge pull request #([0-9]+) \S+ into \S+`
used by `lookup` (repository.go:544). Each `+`-run is forced to be the
maximal run because the following literal can never extend it, so a
direct left-to-right parse is equivalent. Returns the captured digit
group on success. -/
def matchMergePR (out : String) : Option (List Char) :=
  let l := out.data
  let hex := l.takeWhile isHexLower
  let r1 := l.dropWhile isHexLower
  if hex.isEmpty then none else
  match r1 with
  | ' ' :: r2 =>
    if ("Merge pull request #").data.isPrefixOf r2 then
      let r3 := r2.drop ("Merge pull request #").data.length
      let ds := r3.takeWhile isDigitCh
      let r4 := r3.dropWhile isDigitCh
      if ds.isEmpty then none else
      match r4 with
      | ' ' :: r5 =>
        let t1 := r5.takeWhile (fun c => !isGoSpace c)
        let r6 := r5.dropWhile (fun c => !isGoSpace c)
        if t1.isEmpty then none else
        if (" into ").data.isPrefixOf r6 then
          let r7 := r6.drop (" into ").data.length
          if (r7.takeWhile (fun c => !isGoSpace c)).isEmpty then none else some ds
        else none
      | _ => none
    else none
  | _ => none

/-- Decimal value of a digit run, as `strconv.Atoi` computes it. -/
def natOfDigits (ds : List Char) : Nat :=
  ds.foldl (fun n c => n * 10 + (c.toNat - ('0').toNat)) 0

/-- Largest Go `int` (64-bit); `strconv.Atoi` fails with a range error
above it, and `lookup` then falls back to the raw hash. -/
def goMaxInt : Nat := 9223372036854775807

/-- Embedding of `lookup` (repository.go:538-554). The `git show
--oneline <commit>` subprocess is the oracle `sh`: `.error` is a command
execution failure (propagated), `.ok` is the command's output. A
non-matching output, or an `Atoi` range error, yields the commit hash
itself as the label. -/
def lookup (sh : String → Except String String) (commit : String) : Except String String :=
  match sh commit with
  | .error e => .error e
  | .ok out =>
    match matchMergePR out with
    | none => .ok commit
    | some ds =>
      let n := natOfDigits ds
      if n ≤ goMaxInt then .ok ("PR #" ++ toString n) else .ok commit

/-- Split a character list at its first space, as
`strings.SplitN(text, " ", 2)` does; `none` when there is no space, in
which case the Go slice has length 1 and `commitAndSrc[1]` panics. -/
def splitFirstSpace : List Char → Option (List Char × List Char)
  | [] => none
  | c :: cs =>
    if c = ' ' then some ([], cs)
    else
      match splitFirstSpace cs with
      | none => none
      | some (a, b) => some (c :: a, b)

/-- Embedding of `strings.SplitN(scanner.Text(), " ", 2)` followed by the
two-element destructuring at repository.go:515-516. -/
def splitN2 (line : String) : Option (String × String) :=
  (splitFirstSpace line.data).map (fun p => (String.mk p.1, String.mk p.2))

/-- Embedding of the `fmt.Printf("%-<padding>s %s\n", ...)` line
formatting of repository.go:526-533: the label left-justified to the
width `max (len commit) (len label)`, a space, then the source text. -/
def fmtLine (label commit src : String) : String :=
  let padding := max commit.data.length label.data.length
  String.mk (label.data ++ List.replicate (padding - label.data.length) ' ' ++ ' ' :: src.data)

/-- State of one `BlamePR` run: the memoization map `cached`, the
commits passed to `lookup` so far (in call order), and the lines printed
so far. -/
structure BlameState where
  cached : List (String × String)
  calls : List String
  output : List String

/-- How a `BlamePR` run can fail: the index panic on a line without a
space, or a propagated `lookup` command-execution error. -/
inductive BlameFailure
  | splitPanic (line : String)
  | lookupError (e : String)

/-- One iteration of the `BlamePR` scanner loop (repository.go:514-534)
on a single stream line. -/
def blameStep (sh : String → Except String String) (st : BlameState) (line : String) :
    Except BlameFailure BlameState :=
  match splitN2 line with
  | none => .error (.splitPanic line)
  | some (commit, src) =>
    match mapLookup st.cached commit with
    | some lab => .ok { st with output := st.output ++ [fmtLine lab commit src] }
    | none =>
      match lookup sh commit with
      | .error e => .error (.lookupError e)
      | .ok pr =>
        .ok ⟨mapInsert st.cached commit pr, st.calls ++ [commit],
             st.output ++ [fmtLine pr commit src]⟩

/-- The `BlamePR` scanner loop over the remaining stream lines. -/
def runBlameAux (sh : String → Except String String) :
    BlameState → List String → Except BlameFailure BlameState
  | st, [] => .ok st
  | st, l :: ls =>
    match blameStep sh st l with
    | .error e => .error e
    | .ok st' => runBlameAux sh st' ls

/-- Embedding of `BlamePR` (repository.go:498-536) from the point where
the `git blame --first-parent` stream is available as a list of lines;
the per-commit `git show` subprocess is the oracle `sh`. -/
def runBlame (sh : String → Except String String) (lines : List String) :
    Except BlameFailure BlameState :=
  runBlameAux sh ⟨[], [], []⟩ lines

/-- The output line that a given cache dictates for a given stream line:
the cached label for the line's commit, formatted by `fmtLine`. -/
def renderWith (cache : List (String × String)) (line : String) : Option String :=
  match splitN2 line with
  | none => none
  | some (c, src) => (mapLookup cache c).map (fun lab => fmtLine lab c src)

/-- Run invariant of the blame loop: no commit has been passed to
`lookup` twice, and every commit passed to `lookup` is cached. -/
def BlameInv (st : BlameState) : Prop :=
  st.calls.Nodup ∧ ∀ c ∈ st.calls, (mapLookup st.cached c).isSome

/-- Update never changes the choice list. -/
theorem Update_choices (p : prSelector) (m : KeyMsg) :
    (prSelector.Update p m).1.choices = p.choices := by
  cases m <;> simp only [prSelector.Update] <;> (try split) <;> rfl

/-- On a navigation key (neither quit nor confirm), `Update` does not
quit and leaves `selected` unchanged. -/
theorem Update_nav (p : prSelector) (m : KeyMsg) (h : isNavKey m = true) :
    (prSelector.Update p m).2 = false ∧ (prSelector.Update p m).1.selected = p.selected := by
  cases m with
  | q => simp [isNavKey] at h
  | esc => simp [isNavKey] at h
  | ctrlC => simp [isNavKey] at h
  | enter => simp [isNavKey] at h
  | j => exact ⟨rfl, by simp only [prSelector.Update]; split <;> rfl⟩
  | down => exact ⟨rfl, by simp only [prSelector.Update]; split <;> rfl⟩
  | k => exact ⟨rfl, by simp only [prSelector.Update]; split <;> rfl⟩
  | up => exact ⟨rfl, by simp only [prSelector.Update]; split <;> rfl⟩
  | other s => exact ⟨rfl, rfl⟩

/-- Feeding navigation keys followed by a quit key drives the loop to a
final model with `selected` unchanged, reading every event. -/
theorem runSelector_navs (qk : KeyMsg) (hq : isQuitKey qk = true) :
    ∀ (nav : List KeyMsg) (p : prSelector), (∀ m ∈ nav, isNavKey m = true) →
    ∃ pf, runSelector p (nav ++ [qk]) = some (pf, nav.length + 1) ∧ pf.selected = p.selected := by
  intro nav
  induction nav with
  | nil =>
    intro p _
    refine ⟨p, ?_, rfl⟩
    cases qk with
    | q => rfl
    | esc => rfl
    | ctrlC => rfl
    | j => simp [isQuitKey] at hq
    | down => simp [isQuitKey] at hq
    | k => simp [isQuitKey] at hq
    | up => simp [isQuitKey] at hq
    | enter => simp [isQuitKey] at hq
    | other s => simp [isQuitKey] at hq
  | cons m ms ih =>
    intro p hm
    have hnav := hm m (List.mem_cons_self m ms)
    obtain ⟨hq2, hsel2⟩ := Update_nav p m hnav
    rcases hupd : prSelector.Update p m with ⟨p', b⟩
    rw [hupd] at hq2 hsel2
    simp only at hq2 hsel2
    subst hq2
    obtain ⟨pf, hrun, hsel⟩ := ih p' (fun x hx => hm x (List.mem_cons_of_mem m hx))
    refine ⟨pf, ?_, by rw [hsel, hsel2]⟩
    show runSelector p (m :: (ms ++ [qk])) = some (pf, (m :: ms).length + 1)
    simp only [runSelector, hupd, hrun, Option.map_some', List.length_cons]

/-- Claim C2: for a candidate list of length exactly one, `selectPR`
returns the sole candidate immediately: no selector is created, no
prompt is rendered (`prompted = false`) and no input event is read
(`eventsRead = 0`), whatever events would have been available. -/
theorem selectPR_single (rn x : String) (events : List KeyMsg) :
    selectPR rn [x] events = some ⟨.returned x, false, 0⟩ := rfl

/-- Claim C3: when the interactive selector quits with `selected` still
`-1` (the user pressed a quit key after any sequence of navigation
keys), `selectPR` ends the whole process successfully via `os.Exit(0)`,
embedded as the `exitZero` outcome, rather than returning an error. -/
theorem selectPR_abort_exit0 (rn : String) (prIDs : List String) (nav : List KeyMsg)
    (qk : KeyMsg) (hlen : prIDs.length ≠ 1) (hnav : ∀ m ∈ nav, isNavKey m = true)
    (hq : isQuitKey qk = true) :
    selectPR rn prIDs (nav ++ [qk]) = some ⟨.exitZero, true, nav.length + 1⟩ := by
  obtain ⟨pf, hrun, hsel⟩ := runSelector_navs qk hq nav ⟨prIDs, 0, -1, rn⟩ hnav
  simp only at hsel
  simp only [selectPR, if_neg hlen, hrun, hsel, if_pos]

/-- Witness for claim C3 at a concrete run: two candidates, one
move-down, then escape. -/
theorem selectPR_abort_exit0_witness :
    selectPR ("r") [("1"), ("2")] ([KeyMsg.j] ++ [KeyMsg.esc]) =
      some ⟨.exitZero, true, 2⟩ :=
  selectPR_abort_exit0 ("r") [("1"), ("2")] [KeyMsg.j] KeyMsg.esc (by decide)
    (by intro m hm; simp only [List.mem_singleton] at hm; subst hm; rfl) rfl

/-- Update keeps the cursor within `[0, len(choices) - 1]`. -/
theorem Update_cursor_inv (p : prSelector) (m : KeyMsg)
    (h1 : 0 ≤ p.cursor) (h2 : p.cursor ≤ (p.choices.length : Int) - 1) :
    0 ≤ (prSelector.Update p m).1.cursor ∧
    (prSelector.Update p m).1.cursor ≤ ((prSelector.Update p m).1.choices.length : Int) - 1 := by
  rw [Update_choices]
  cases m <;> simp only [prSelector.Update] <;> (try split) <;> (try dsimp only) <;> omega

/-- The choice list survives any event sequence. -/
theorem applyMsgs_choices (ms : List KeyMsg) :
    ∀ p : prSelector, (applyMsgs p ms).choices = p.choices := by
  induction ms with
  | nil => intro p; rfl
  | cons m ms ih =>
    intro p
    show (applyMsgs (prSelector.Update p m).1 ms).choices = p.choices
    rw [ih, Update_choices]

/-- The cursor bound is an invariant of any event sequence. -/
theorem applyMsgs_cursor_inv (ms : List KeyMsg) :
    ∀ p : prSelector, 0 ≤ p.cursor → p.cursor ≤ (p.choices.length : Int) - 1 →
    0 ≤ (applyMsgs p ms).cursor ∧
      (applyMsgs p ms).cursor ≤ ((applyMsgs p ms).choices.length : Int) - 1 := by
  induction ms with
  | nil => intro p h1 h2; exact ⟨h1, h2⟩
  | cons m ms ih =>
    intro p h1 h2
    have h := Update_cursor_inv p m h1 h2
    exact ih _ h.1 h.2

/-- Claim C9: starting from cursor `0` over a non-empty choices list,
every sequence of input events keeps the cursor within
`0 ≤ cursor ≤ len(choices) - 1`, and confirming at any reached state
sets `selected` to the cursor. -/
theorem selector_cursor_invariant (choices : List String) (rn : String) (ms : List KeyMsg)
    (h : choices ≠ []) :
    0 ≤ (applyMsgs ⟨choices, 0, -1, rn⟩ ms).cursor ∧
    (applyMsgs ⟨choices, 0, -1, rn⟩ ms).cursor ≤ (choices.length : Int) - 1 ∧
    (prSelector.Update (applyMsgs ⟨choices, 0, -1, rn⟩ ms) KeyMsg.enter).1.selected =
      (applyMsgs ⟨choices, 0, -1, rn⟩ ms).cursor := by
  have hpos : 0 < choices.length := List.length_pos.mpr h
  obtain ⟨a, b⟩ := applyMsgs_cursor_inv ms ⟨choices, 0, -1, rn⟩ le_rfl (by simp only; omega)
  rw [applyMsgs_choices] at b
  exact ⟨a, b, rfl⟩

/-- Witness for claim C9 at a concrete state: two candidates and a
down-down-up event sequence. -/
theorem selector_cursor_invariant_witness :
    0 ≤ (applyMsgs ⟨[("1"), ("2")], 0, -1, ("r")⟩ [KeyMsg.down, KeyMsg.down, KeyMsg.up]).cursor ∧
    (applyMsgs ⟨[("1"), ("2")], 0, -1, ("r")⟩ [KeyMsg.down, KeyMsg.down, KeyMsg.up]).cursor ≤
      (([("1"), ("2")] : List String).length : Int) - 1 ∧
    (prSelector.Update (applyMsgs ⟨[("1"), ("2")], 0, -1, ("r")⟩
        [KeyMsg.down, KeyMsg.down, KeyMsg.up]) KeyMsg.enter).1.selected =
      (applyMsgs ⟨[("1"), ("2")], 0, -1, ("r")⟩ [KeyMsg.down, KeyMsg.down, KeyMsg.up]).cursor :=
  selector_cursor_invariant [("1"), ("2")] ("r") [KeyMsg.down, KeyMsg.down, KeyMsg.up] (by decide)

/-- Strict order on characters seen on code points (equal to the byte
order Go uses, since UTF-8 is order-preserving). -/
theorem charLt_toNat {a b : Char} : a < b ↔ a.toNat < b.toNat := Iff.rfl

/-- The bytewise string order is asymmetric. -/
theorem charListLess_asymm : ∀ {a b : List Char},
    charListLess a b = true → charListLess b a = false := by
  intro a
  induction a with
  | nil =>
    intro b h
    cases b with
    | nil => exact absurd h (by simp [charListLess])
    | cons y ys => rfl
  | cons x xs ih =>
    intro b h
    cases b with
    | nil => exact absurd h (by simp [charListLess])
    | cons y ys =>
      simp only [charListLess] at h ⊢
      by_cases hxy : x < y
      · have hyx : ¬ y < x := by
          have h1 : x.toNat < y.toNat := hxy
          intro h2
          have h3 : y.toNat < x.toNat := h2
          omega
        rw [if_neg hyx, if_pos hxy]
      · rw [if_neg hxy] at h
        by_cases hyx : y < x
        · rw [if_pos hyx] at h
          exact absurd h (by simp)
        · rw [if_neg hyx] at h
          rw [if_neg hyx, if_neg hxy]
          exact ih h

/-- The complement of the bytewise string order is transitive. -/
theorem charListLess_negtrans : ∀ {a b c : List Char},
    charListLess a b = false → charListLess b c = false → charListLess a c = false := by
  intro a
  induction a with
  | nil =>
    intro b c h1 h2
    cases b with
    | nil => exact h2
    | cons y ys => exact absurd h1 (by simp [charListLess])
  | cons x xs ih =>
    intro b c h1 h2
    cases b with
    | nil =>
      cases c with
      | nil => rfl
      | cons z zs => exact absurd h2 (by simp [charListLess])
    | cons y ys =>
      cases c with
      | nil => rfl
      | cons z zs =>
        simp only [charListLess] at h1 h2 ⊢
        by_cases hxy : x < y
        · rw [if_pos hxy] at h1
          exact absurd h1 (by simp)
        · by_cases hyz : y < z
          · rw [if_pos hyz] at h2
            exact absurd h2 (by simp)
          · rw [if_neg hxy] at h1
            rw [if_neg hyz] at h2
            by_cases hyx : y < x
            · by_cases hzy : z < y
              · have hg1 : y.toNat < x.toNat := hyx
                have hg2 : z.toNat < y.toNat := hzy
                have hxz : ¬ x < z := by
                  intro hc
                  have h3 : x.toNat < z.toNat := hc
                  omega
                have hzx : z < x := by
                  show z.toNat < x.toNat
                  omega
                rw [if_neg hxz, if_pos hzx]
              · have hg1 : y.toNat < x.toNat := hyx
                have hg2 : ¬ z.toNat < y.toNat := fun hc => hzy hc
                have hg3 : ¬ y.toNat < z.toNat := fun hc => hyz hc
                have hxz : ¬ x < z := by
                  intro hc
                  have h3 : x.toNat < z.toNat := hc
                  omega
                have hzx : z < x := by
                  show z.toNat < x.toNat
                  omega
                rw [if_neg hxz, if_pos hzx]
            · rw [if_neg hyx] at h1
              have hg1 : ¬ x.toNat < y.toNat := fun hc => hxy hc
              have hg2 : ¬ y.toNat < x.toNat := fun hc => hyx hc
              have hg3 : ¬ y.toNat < z.toNat := fun hc => hyz hc
              by_cases hzy : z < y
              · have hg4 : z.toNat < y.toNat := hzy
                have hxz : ¬ x < z := by
                  intro hc
                  have h3 : x.toNat < z.toNat := hc
                  omega
                have hzx : z < x := by
                  show z.toNat < x.toNat
                  omega
                rw [if_neg hxz, if_pos hzx]
              · rw [if_neg hzy] at h2
                have hg4 : ¬ z.toNat < y.toNat := fun hc => hzy hc
                have hxz : ¬ x < z := by
                  intro hc
                  have h3 : x.toNat < z.toNat := hc
                  omega
                have hzx : ¬ z < x := by
                  intro hc
                  have h3 : z.toNat < x.toNat := hc
                  omega
                rw [if_neg hxz, if_neg hzx]
                exact ih h1 h2

/-- Membership in an insertion: the element is the inserted one or was
already present. -/
theorem mem_insertDesc {z x : String} : ∀ {ys : List String},
    z ∈ insertDesc x ys → z = x ∨ z ∈ ys := by
  intro ys
  induction ys with
  | nil => intro h; simp only [insertDesc, List.mem_singleton] at h; exact Or.inl h
  | cons y ys ih =>
    intro h
    simp only [insertDesc] at h
    split at h
    · rcases List.mem_cons.mp h with rfl | h2
      · exact Or.inr (List.mem_cons_self _ _)
      · rcases ih h2 with h3 | h3
        · exact Or.inl h3
        · exact Or.inr (List.mem_cons_of_mem _ h3)
    · rcases List.mem_cons.mp h with rfl | h2
      · exact Or.inl rfl
      · exact Or.inr h2

/-- Inserting preserves descending sortedness. -/
theorem insertDesc_pairwise (x : String) : ∀ ys : List String,
    List.Pairwise (fun a b => charListLess a.data b.data = false) ys →
    List.Pairwise (fun a b => charListLess a.data b.data = false) (insertDesc x ys) := by
  intro ys
  induction ys with
  | nil => intro _; simp [insertDesc]
  | cons y ys ih =>
    intro h
    rw [List.pairwise_cons] at h
    obtain ⟨h1, h2⟩ := h
    simp only [insertDesc]
    split
    · rename_i hxy
      rw [List.pairwise_cons]
      refine ⟨?_, ih h2⟩
      intro z hz
      rcases mem_insertDesc hz with rfl | hzys
      · exact charListLess_asymm hxy
      · exact h1 z hzys
    · rename_i hxy
      have hxy2 : charListLess x.data y.data = false := by
        revert hxy
        cases charListLess x.data y.data <;> simp
      rw [List.pairwise_cons]
      refine ⟨?_, List.pairwise_cons.mpr ⟨h1, h2⟩⟩
      intro z hz
      rcases List.mem_cons.mp hz with rfl | hzys
      · exact hxy2
      · exact charListLess_negtrans hxy2 (h1 z hzys)

/-- The output of `sortDesc` is descending in the bytewise string
order: no element is bytewise-less than a later one. -/
theorem sortDesc_pairwise : ∀ l : List String,
    List.Pairwise (fun a b => charListLess a.data b.data = false) (sortDesc l) := by
  intro l
  induction l with
  | nil => exact List.Pairwise.nil
  | cons x xs ih => exact insertDesc_pairwise x (sortDesc xs) ih

/-- Claim C6: whenever `findPullRequestIDFromRemote` succeeds, the
candidate list it returns is sorted in descending lexical string order
(the bytewise string order, applied to the identifiers as strings). -/
theorem findPullRequestIDFromRemote_sorted (m : List (String × String)) (ref : String)
    (l : List String) (h : findPullRequestIDFromRemote m ref = .ok l) :
    List.Pairwise (fun a b => charListLess a.data b.data = false) l := by
  simp only [findPullRequestIDFromRemote] at h
  rcases hs : mapLookup m ref with _ | targetHash
  · rw [hs] at h
    exact absurd h (by simp)
  · rw [hs] at h
    simp only at h
    split at h
    · exact absurd h (by simp)
    · rw [Except.ok.injEq] at h
      rw [← h]
      exact sortDesc_pairwise _

/-- Witness for claim C6: a remote with three PR heads on the target
hash yields the descending-sorted candidate list. -/
theorem findPullRequestIDFromRemote_sorted_witness :
    List.Pairwise (fun a b => charListLess a.data b.data = false)
      [("5"), ("12"), ("100")] :=
  findPullRequestIDFromRemote_sorted
    [(("refs/heads/b"), ("h")), (("refs/pull/12/head"), ("h")), (("refs/pull/5/head"), ("h")),
     (("refs/pull/100/head"), ("h"))] ("refs/heads/b") [("5"), ("12"), ("100")] rfl

/-- Counterexample to claim C7: on `["12", "5", "100"]` the matcher's
descending lexical sort does not yield `["5", "100", "12"]`. -/
theorem sortDesc_spec_example_refuted :
    ¬ (sortDesc [("12"), ("5"), ("100")] = [("5"), ("100"), ("12")]) := by decide

/-- Claim C7 as amended: on `["12", "5", "100"]` the matcher's
descending lexical sort yields `["5", "12", "100"]` (since
`"5" > "12" > "100"` bytewise), also end-to-end through
`findPullRequestIDFromRemote`. -/
theorem sortDesc_spec_example :
    sortDesc [("12"), ("5"), ("100")] = [("5"), ("12"), ("100")] ∧
    findPullRequestIDFromRemote
      [(("refs/heads/b"), ("h")), (("refs/pull/12/head"), ("h")), (("refs/pull/5/head"), ("h")),
       (("refs/pull/100/head"), ("h"))] ("refs/heads/b") = .ok [("5"), ("12"), ("100")] :=
  ⟨rfl, rfl⟩

/-- Claim C4: given a parsed remote table, `findPullRequestIDFromRemote`
fails with the `not found a current branch in remote` error exactly when
the target ref is absent from the table; it fails with the
`not found a pull request related to current branch` error exactly when
the target is present but no `refs/pull/<id>/head` entry carries the
target's hash; and it succeeds exactly when the target is present and
some PR head carries its hash, so its not-found failures are exactly
those two cases. -/
theorem findPullRequestIDFromRemote_notFound (m : List (String × String)) (ref : String) :
    (findPullRequestIDFromRemote m ref = .error ("not found a current branch in remote") ↔
      mapLookup m ref = none) ∧
    (findPullRequestIDFromRemote m ref =
        .error ("not found a pull request related to current branch") ↔
      ∃ h, mapLookup m ref = some h ∧ m.filter (fun p => isPRRef p.1 && p.2 == h) = []) ∧
    ((∃ l, findPullRequestIDFromRemote m ref = .ok l) ↔
      ∃ h, mapLookup m ref = some h ∧ m.filter (fun p => isPRRef p.1 && p.2 == h) ≠ []) := by
  have hne : ("not found a current branch in remote" : String) ≠
      ("not found a pull request related to current branch") := by decide
  rcases hs : mapLookup m ref with _ | targetHash
  · have hv : findPullRequestIDFromRemote m ref =
        .error ("not found a current branch in remote") := by
      simp [findPullRequestIDFromRemote, hs]
    rw [hv]
    refine ⟨iff_of_true rfl rfl, ?_, ?_⟩
    · refine iff_of_false (fun hc => hne (Except.error.inj hc)) ?_
      rintro ⟨h, hc, -⟩
      exact absurd hc (by simp)
    · refine iff_of_false ?_ ?_
      · rintro ⟨l, hc⟩
        exact absurd hc (by simp)
      · rintro ⟨h, hc, -⟩
        exact absurd hc (by simp)
  · by_cases hf : m.filter (fun p => isPRRef p.1 && p.2 == targetHash) = []
    · have hv : findPullRequestIDFromRemote m ref =
          .error ("not found a pull request related to current branch") := by
        simp only [findPullRequestIDFromRemote, hs]
        rw [hf]
        simp
      rw [hv]
      refine ⟨iff_of_false (fun hc => hne (Except.error.inj hc).symm) (by simp),
        iff_of_true rfl ⟨targetHash, rfl, hf⟩, ?_⟩
      refine iff_of_false ?_ ?_
      · rintro ⟨l, hc⟩
        exact absurd hc (by simp)
      · rintro ⟨h, hc, hc2⟩
        rw [Option.some.injEq] at hc
        exact hc2 (hc ▸ hf)
    · have hlen : (m.filter (fun p => isPRRef p.1 && p.2 == targetHash)).map
          (fun p => extractPRID p.1) ≠ [] := by
        intro hc
        exact hf (List.map_eq_nil_iff.mp hc)
      have hv : findPullRequestIDFromRemote m ref =
          .ok (sortDesc ((m.filter (fun p => isPRRef p.1 && p.2 == targetHash)).map
            (fun p => extractPRID p.1))) := by
        simp only [findPullRequestIDFromRemote, hs]
        rw [if_neg (fun hc => hlen (List.length_eq_zero.mp hc))]
      rw [hv]
      refine ⟨iff_of_false (by simp) (by simp), iff_of_false (by simp) ?_,
        iff_of_true ⟨_, rfl⟩ ⟨targetHash, rfl, hf⟩⟩
      rintro ⟨h, hc, hc2⟩
      rw [Option.some.injEq] at hc
      exact hf (hc ▸ hc2)

/-- Witness for claim C4: a table without the target ref produces the
absent-branch error. -/
theorem findPullRequestIDFromRemote_notFound_witness :
    findPullRequestIDFromRemote [(("r"), ("h"))] ("x") =
      .error ("not found a current branch in remote") :=
  (findPullRequestIDFromRemote_notFound [(("r"), ("h"))] ("x")).1.mpr rfl

/-- The `toRefToHash` loop fails (with the Go index panic, embedded as
`none`) exactly when some line has fewer than two tab-separated
fields. -/
theorem buildTable_none_iff : ∀ (ls : List String) (m : List (String × String)),
    buildTable m ls = none ↔ ∃ v ∈ ls, (goSplit '\t' v).length < 2 := by
  intro ls
  induction ls with
  | nil => intro m; simp [buildTable]
  | cons v rest ih =>
    intro m
    rcases hsp : goSplit '\t' v with _ | ⟨ha, tl⟩
    · have hbt : buildTable m (v :: rest) = none := by
        simp only [buildTable]
        rw [hsp]
      rw [hbt]
      refine iff_of_true rfl ⟨v, List.mem_cons_self v rest, ?_⟩
      rw [hsp]
      simp
    · rcases tl with _ | ⟨hb, tl2⟩
      · have hbt : buildTable m (v :: rest) = none := by
          simp only [buildTable]
          rw [hsp]
        rw [hbt]
        refine iff_of_true rfl ⟨v, List.mem_cons_self v rest, ?_⟩
        rw [hsp]
        simp
      · have hbt : buildTable m (v :: rest) = buildTable (mapInsert m hb ha) rest := by
          simp only [buildTable]
          rw [hsp]
        rw [hbt, ih]
        have hlen : ¬ (goSplit '\t' v).length < 2 := by
          rw [hsp]
          simp
        constructor
        · intro hx
          obtain ⟨w, hw, hwl⟩ := hx
          exact ⟨w, List.mem_cons_of_mem v hw, hwl⟩
        · intro hx
          obtain ⟨w, hw, hwl⟩ := hx
          rcases List.mem_cons.mp hw with rfl | hw2
          · exact absurd hwl hlen
          · exact ⟨w, hw2, hwl⟩

/-- Claim C5 as amended: `toRefToHash` has no error result at all; it
panics (embedded as `none`) exactly when some line of the trimmed
listing splits into fewer than two tab-separated fields, and a line with
more than two tab-separated fields is accepted silently, using the first
field as hash and the second as ref name. -/
theorem toRefToHash_panics_iff (b : String) :
    toRefToHash b = none ↔
      ∃ v ∈ goSplit '\n' (trimTrailNL b), (goSplit '\t' v).length < 2 :=
  buildTable_none_iff (goSplit '\n' (trimTrailNL b)) []

/-- Counterexample to claim C5 as stated: a line with three
tab-separated fields does not split into exactly two fields, yet
`toRefToHash` does not fail on it — it silently keeps the first two
fields — so the function does not fail whenever a line lacks exactly
two fields, and it never produces an error value. -/
theorem toRefToHash_extra_fields_accepted :
    (goSplit '\t' ("h\tr\tx")).length ≠ 2 ∧
    toRefToHash ("h\tr\tx") = some [(("r"), ("h"))] :=
  ⟨by decide, rfl⟩

/-- Reading an updated map: the inserted key maps to the new value and
every other key is untouched. -/
theorem mapLookup_insert : ∀ (m : List (String × String)) (k v k' : String),
    mapLookup (mapInsert m k v) k' = if k' = k then some v else mapLookup m k' := by
  intro m
  induction m with
  | nil => intro k v k'; rfl
  | cons a rest ih =>
    intro k v k'
    obtain ⟨ka, va⟩ := a
    by_cases hak : ka = k
    · subst hak
      by_cases hk : k' = ka
      · subst hk
        simp [mapInsert, mapLookup]
      · simp [mapInsert, mapLookup, hk]
    · by_cases hk : k' = ka
      · subst hk
        simp [mapInsert, mapLookup, hak]
      · simp [mapInsert, mapLookup, hak, hk, ih]

/-- Anatomy of a successful blame-loop iteration: the line splits at its
first space, and the state advances through the cache-hit branch or the
lookup-and-memoize branch. -/
theorem blameStep_ok_cases (sh : String → Except String String) (st st' : BlameState)
    (l : String) (h : blameStep sh st l = .ok st') :
    ∃ c src, splitN2 l = some (c, src) ∧
      ((∃ lab, mapLookup st.cached c = some lab ∧
          st' = { st with output := st.output ++ [fmtLine lab c src] }) ∨
       (mapLookup st.cached c = none ∧ ∃ pr, lookup sh c = .ok pr ∧
          st' = ⟨mapInsert st.cached c pr, st.calls ++ [c],
                 st.output ++ [fmtLine pr c src]⟩)) := by
  unfold blameStep at h
  split at h
  · exact absurd h (by simp)
  · rename_i p c src hsp
    refine ⟨c, src, hsp, ?_⟩
    split at h
    · rename_i lab hm
      rw [Except.ok.injEq] at h
      exact Or.inl ⟨lab, hm, h.symm⟩
    · rename_i hm
      split at h
      · exact absurd h (by simp)
      · rename_i pr hl
        rw [Except.ok.injEq] at h
        exact Or.inr ⟨hm, pr, hl, h.symm⟩

/-- A successful step never loses a cache entry, and never changes one. -/
theorem blameStep_cache_mono (sh : String → Except String String) (st st' : BlameState)
    (l : String) (h : blameStep sh st l = .ok st') :
    ∀ k v, mapLookup st.cached k = some v → mapLookup st'.cached k = some v := by
  obtain ⟨c, src, hsp, hcase⟩ := blameStep_ok_cases sh st st' l h
  intro k v hv
  rcases hcase with ⟨lab, hm, rfl⟩ | ⟨hm, pr, hl, rfl⟩
  · exact hv
  · show mapLookup (mapInsert st.cached c pr) k = some v
    rw [mapLookup_insert]
    by_cases hk : k = c
    · subst hk
      rw [hm] at hv
      exact absurd hv (by simp)
    · rw [if_neg hk]
      exact hv

/-- A successful step preserves the run invariant: calls stay
duplicate-free and every called commit stays cached. -/
theorem blameStep_inv (sh : String → Except String String) (st st' : BlameState)
    (l : String) (h : blameStep sh st l = .ok st') (hinv : BlameInv st) : BlameInv st' := by
  obtain ⟨c, src, hsp, hcase⟩ := blameStep_ok_cases sh st st' l h
  rcases hcase with ⟨lab, hm, rfl⟩ | ⟨hm, pr, hl, rfl⟩
  · exact hinv
  · obtain ⟨hnd, hmem⟩ := hinv
    constructor
    · show (st.calls ++ [c]).Nodup
      rw [List.nodup_append]
      refine ⟨hnd, List.nodup_singleton c, ?_⟩
      intro x hx hxc
      rw [List.mem_singleton] at hxc
      subst hxc
      have := hmem x hx
      rw [hm] at this
      exact absurd this (by simp)
    · intro x hx
      show (mapLookup (mapInsert st.cached c pr) x).isSome
      rw [mapLookup_insert]
      by_cases hk : x = c
      · rw [if_pos hk]
        rfl
      · rw [if_neg hk]
        rcases List.mem_append.mp hx with hx2 | hx2
        · exact hmem x hx2
        · rw [List.mem_singleton] at hx2
          exact absurd hx2 hk

/-- A successful step appends exactly one output line, and that line is
what the step's resulting cache dictates for the consumed stream line. -/
theorem blameStep_out (sh : String → Except String String) (st st' : BlameState)
    (l : String) (h : blameStep sh st l = .ok st') :
    ∃ out, st'.output = st.output ++ [out] ∧ renderWith st'.cached l = some out := by
  obtain ⟨c, src, hsp, hcase⟩ := blameStep_ok_cases sh st st' l h
  rcases hcase with ⟨lab, hm, rfl⟩ | ⟨hm, pr, hl, rfl⟩
  · exact ⟨fmtLine lab c src, rfl, by simp only [renderWith, hsp, hm, Option.map_some']⟩
  · refine ⟨fmtLine pr c src, rfl, ?_⟩
    have hm2 : mapLookup (mapInsert st.cached c pr) c = some pr := by
      rw [mapLookup_insert, if_pos rfl]
    simp only [renderWith, hsp, hm2, Option.map_some']

/-- A rendered line only depends on the cache entry of its own commit,
so it survives any cache extension. -/
theorem renderWith_mono (m m' : List (String × String)) (l out : String)
    (hmono : ∀ k v, mapLookup m k = some v → mapLookup m' k = some v)
    (h : renderWith m l = some out) : renderWith m' l = some out := by
  unfold renderWith at h ⊢
  split at h
  · exact absurd h (by simp)
  · rename_i p c src hsp
    rcases hm : mapLookup m c with _ | lab
    · rw [hm] at h
      exact absurd h (by simp)
    · rw [hm] at h
      rw [hmono c lab hm]
      exact h

/-- Main induction for the blame loop: a successful run preserves the
invariant, extends the cache monotonically, and appends one rendered
line per stream line, each rendered from the final cache. -/
theorem runBlameAux_spec (sh : String → Except String String) (ls : List String) :
    ∀ st s, runBlameAux sh st ls = .ok s → BlameInv st →
      BlameInv s ∧ (∀ k v, mapLookup st.cached k = some v → mapLookup s.cached k = some v) ∧
      ∃ outs, s.output = st.output ++ outs ∧
        List.Forall₂ (fun l o => renderWith s.cached l = some o) ls outs := by
  induction ls with
  | nil =>
    intro st s h hinv
    simp only [runBlameAux, Except.ok.injEq] at h
    subst h
    exact ⟨hinv, fun k v hv => hv, [], by simp, List.Forall₂.nil⟩
  | cons l ls ih =>
    intro st s h hinv
    simp only [runBlameAux] at h
    split at h
    · exact absurd h (by simp)
    · rename_i st' hstep
      obtain ⟨hinvS, mono2, outs, houts, hfa⟩ := ih st' s h (blameStep_inv sh st st' l hstep hinv)
      obtain ⟨out, hout, hrw⟩ := blameStep_out sh st st' l hstep
      have mono1 := blameStep_cache_mono sh st st' l hstep
      refine ⟨hinvS, fun k v hv => mono2 k v (mono1 k v hv), out :: outs, ?_, ?_⟩
      · rw [houts, hout, List.append_assoc]
        rfl
      · exact List.Forall₂.cons (renderWith_mono st'.cached s.cached l out mono2 hrw) hfa

/-- Claim C1: in any successful `BlamePR` run, `lookup` is invoked at
most once per distinct commit hash of the stream (the call list has no
duplicates), and every output line is the one dictated by the final
cache for its stream line — so all lines carrying the same hash show the
identical cached label. -/
theorem blamePR_memoization (sh : String → Except String String) (lines : List String)
    (s : BlameState) (h : runBlame sh lines = .ok s) :
    s.calls.Nodup ∧
    List.Forall₂ (fun l o => renderWith s.cached l = some o) lines s.output := by
  obtain ⟨hinv, -, outs, houts, hfa⟩ :=
    runBlameAux_spec sh lines ⟨[], [], []⟩ s h ⟨List.nodup_nil, by intro c hc; cases hc⟩
  refine ⟨hinv.1, ?_⟩
  rw [houts]
  exact hfa

/-- Witness for claim C1: a stream naming the same commit twice, with a
non-merge `git show` output; the commit is looked up once and both lines
show the same label. -/
theorem blamePR_memoization_witness :
    List.Nodup [("abc")] ∧
    List.Forall₂ (fun l o => renderWith [(("abc"), ("abc"))] l = some o)
      [("abc one"), ("abc two")] [("abc one"), ("abc two")] :=
  blamePR_memoization (fun _ => .ok ("nope")) [("abc one"), ("abc two")]
    ⟨[(("abc"), ("abc"))], [("abc")], [("abc one"), ("abc two")]⟩ rfl

/-- Claim C8: on a stream line whose commit is not yet cached, if the
`git show` query succeeds but its output does not match the merge
pattern, the commit is labelled with its own hash and the loop continues
with the remaining lines; if instead the query's execution itself fails,
the error is propagated and the whole run aborts at once. -/
theorem blamePR_lookup_asymmetry (l commit src : String) (st : BlameState)
    (rest : List String) (hsp : splitN2 l = some (commit, src))
    (hm : mapLookup st.cached commit = none) :
    (∀ (sh : String → Except String String) (out : String),
      sh commit = .ok out → matchMergePR out = none →
      runBlameAux sh st (l :: rest) =
        runBlameAux sh ⟨mapInsert st.cached commit commit, st.calls ++ [commit],
          st.output ++ [fmtLine commit commit src]⟩ rest) ∧
    (∀ (sh : String → Except String String) (e : String),
      sh commit = .error e →
      runBlameAux sh st (l :: rest) = .error (.lookupError e)) := by
  constructor
  · intro sh out hok hnm
    have hl : lookup sh commit = .ok commit := by
      unfold lookup
      rw [hok]
      dsimp only
      rw [hnm]
    have hstep : blameStep sh st l =
        .ok ⟨mapInsert st.cached commit commit, st.calls ++ [commit],
          st.output ++ [fmtLine commit commit src]⟩ := by
      unfold blameStep
      rw [hsp]
      dsimp only
      rw [hm]
      dsimp only
      rw [hl]
    simp only [runBlameAux, hstep]
  · intro sh e herr
    have hl : lookup sh commit = .error e := by
      unfold lookup
      rw [herr]
    have hstep : blameStep sh st l = .error (.lookupError e) := by
      unfold blameStep
      rw [hsp]
      dsimp only
      rw [hm]
      dsimp only
      rw [hl]
    simp only [runBlameAux, hstep]

/-- Witness for claim C8 at a concrete stream: with a non-merge `show`
output the first line is labelled by its own hash and the run continues;
with a failing `show` command the run aborts with that error. -/
theorem blamePR_lookup_asymmetry_witness :
    runBlameAux (fun _ => .ok ("nope")) ⟨[], [], []⟩ [("c x"), ("c y")] =
      runBlameAux (fun _ => .ok ("nope"))
        ⟨mapInsert [] ("c") ("c"), [] ++ [("c")],
         [] ++ [fmtLine ("c") ("c") ("x")]⟩ [("c y")] ∧
    runBlameAux (fun _ => .error ("boom")) ⟨[], [], []⟩ [("c x"), ("c y")] =
      .error (.lookupError ("boom")) :=
  ⟨(blamePR_lookup_asymmetry ("c x") ("c") ("x") ⟨[], [], []⟩ [("c y")] rfl rfl).1
      (fun _ => .ok ("nope")) ("nope") rfl rfl,
   (blamePR_lookup_asymmetry ("c x") ("c") ("x") ⟨[], [], []⟩ [("c y")] rfl rfl).2
      (fun _ => .error ("boom")) ("boom") rfl⟩

/-- Splitting at the first space only: everything after the first space
is kept as one piece, spaces included. -/
theorem splitFirstSpace_append : ∀ (a b : List Char), (' ') ∉ a →
    splitFirstSpace (a ++ (' ') :: b) = some (a, b) := by
  intro a
  induction a with
  | nil =>
    intro b _
    simp [splitFirstSpace]
  | cons c cs ih =>
    intro b h
    rw [List.mem_cons, not_or] at h
    obtain ⟨hc, hcs⟩ := h
    show splitFirstSpace (c :: (cs ++ (' ') :: b)) = some (c :: cs, b)
    simp only [splitFirstSpace]
    rw [if_neg (fun hx => hc hx.symm), ih b hcs]

/-- A line without a space does not split. -/
theorem splitFirstSpace_none : ∀ (a : List Char), (' ') ∉ a →
    splitFirstSpace a = none := by
  intro a
  induction a with
  | nil => intro _; rfl
  | cons c cs ih =>
    intro h
    rw [List.mem_cons, not_or] at h
    obtain ⟨hc, hcs⟩ := h
    simp only [splitFirstSpace]
    rw [if_neg (fun hx => hc hx.symm), ih hcs]

/-- Claim C10: `BlamePR` splits each stream line at the first space
only — for a line `s ++ " " ++ t` with no space in `s`, the commit field
is `s` and the whole of `t`, spaces included, is the source field — and
on a line with no space at all the access to the second field is out of
bounds, so the run fails through the split-panic branch no matter what
follows: `BlamePR` is not total over arbitrary stream lines. -/
theorem blamePR_splitN (s t l : String) (hs : (' ') ∉ s.data) (hl : (' ') ∉ l.data)
    (sh : String → Except String String) (st : BlameState) (rest : List String) :
    splitN2 (s ++ (" ") ++ t) = some (s, t) ∧
    runBlameAux sh st (l :: rest) = .error (.splitPanic l) := by
  constructor
  · have hdata : (s ++ (" ") ++ t).data = s.data ++ (' ') :: t.data := by
      rw [String.data_append, String.data_append, List.append_assoc]
      rfl
    unfold splitN2
    rw [hdata, splitFirstSpace_append s.data t.data hs]
    show some (String.mk s.data, String.mk t.data) = some (s, t)
    cases s
    cases t
    rfl
  · have hsp : splitN2 l = none := by
      unfold splitN2
      rw [splitFirstSpace_none l.data hl]
      rfl
    have hstep : blameStep sh st l = .error (.splitPanic l) := by
      unfold blameStep
      rw [hsp]
    simp only [runBlameAux, hstep]

/-- Witness for claim C10: the commit field of `abc x y` is `abc` with
source `x y` kept whole, and the empty line panics the run. -/
theorem blamePR_splitN_witness :
    splitN2 (("abc") ++ (" ") ++ ("x y")) = some (("abc"), ("x y")) ∧
    runBlameAux (fun _ => .ok ("nope")) ⟨[], [], []⟩ [("")] =
      .error (.splitPanic ("")) :=
  blamePR_splitN ("abc") ("x y") ("") (by decide) (by decide)
    (fun _ => .ok ("nope")) ⟨[], [], []⟩ []

end Gitb
